import Mathlib

/-
Verification development for the vectorDBpipe repository.

Shallow embedding of the chunker (vectorDBpipe/utils/common.py), the FAISS
vector store client (vectorDBpipe/vectordb/faiss_client.py) and the
router/engine layer (vectorDBpipe/pipeline/vdbpipe.py), together with
theorems settling the frozen claims about them.

Strings from the source are modelled with Lean String and List Char;
floating point embedding vectors are modelled with exact integer
coordinates, which preserves the distance-ordering facts the claims are
about while staying kernel-computable; the external FAISS flat L2 index is
modelled as exact squared-L2 nearest-neighbour search with ties broken by
insertion position, which is the contract the client code relies on.  Mutable attributes become explicit state records, and code that can
raise returns the resulting state together with an optional exception
message.
-/

namespace VectorDBpipe

/-! ## Chunker: vectorDBpipe/utils/common.py -/

/-- Whitespace test matching the class used by str.split and str.strip in
Python (space, tab, newline, carriage return, vertical tab, form feed). -/
def pyIsSpace (c : Char) : Bool :=
  c = ' ' || c = '\t' || c = '\n' || c = '\r' || c = '\x0b' || c = '\x0c'

/-- Helper for pyTokens: walks the characters, accumulating the current word
reversed, emitting a word at each whitespace boundary. -/
def splitWsAux : List Char → List Char → List (List Char)
  | [], acc => if acc.isEmpty then [] else [acc.reverse]
  | c :: cs, acc =>
    if pyIsSpace c then
      if acc.isEmpty then splitWsAux cs [] else acc.reverse :: splitWsAux cs []
    else splitWsAux cs (c :: acc)

/-- Embedding of text.split() with no argument: split on runs of whitespace,
discarding empty tokens. -/
def pyTokens (text : String) : List String :=
  (splitWsAux text.toList []).map String.mk

/-- Embedding of the while loop of chunk_text, with explicit fuel so that the
possible divergence of the source loop (when overlap >= chunk_size the start
index never advances) is observable: none means the fuel ran out while the
loop was still running.  Each iteration with start < len(tokens) appends the
window tokens[start : start + size] and advances start by size - overlap
(natural subtraction, matching the Python int subtraction on the reachable
inputs where overlap <= size). -/
def chunkLoopF (tokens : List String) (size ov : Nat) : Nat → Nat → Option (List (List String))
  | 0, start => if start < tokens.length then none else some []
  | fuel + 1, start =>
    if start < tokens.length then
      (chunkLoopF tokens size ov fuel (start + (size - ov))).map
        (fun rest => (tokens.drop start).take size :: rest)
    else some []

/-- Token-level result of chunk_text: the loop run with enough fuel
(length + 1 iterations always suffice when overlap < size). -/
def chunkTokens (tokens : List String) (size ov : Nat) : List (List String) :=
  (chunkLoopF tokens size ov (tokens.length + 1) 0).getD []

/-- Embedding of chunk_text: tokenize, window, and join each window with a
single space. -/
def chunk_text (text : String) (size ov : Nat) : List String :=
  (chunkTokens (pyTokens text) size ov).map (String.intercalate " ")

/-- The claim reading of two consecutive chunks overlapping by exactly k
tokens: the final k tokens of the first chunk are the first k tokens of the
second, and both chunks have at least k tokens. -/
def overlapsByExactly (c c' : List String) (k : Nat) : Prop :=
  k ≤ c.length ∧ k ≤ c'.length ∧ c.drop (c.length - k) = c'.take k

instance (c c' : List String) (k : Nat) : Decidable (overlapsByExactly c c' k) := by
  unfold overlapsByExactly; exact inferInstance

example : pyTokens "a b  c d" = ["a", "b", "c", "d"] := by decide
example : chunkTokens ["a", "b", "c", "d"] 5 4 = [["a","b","c","d"], ["b","c","d"], ["c","d"], ["d"]] := by decide
example : chunk_text "a b c" 2 1 = ["a b", "b c", "c"] := by decide

/-- With overlap < size the loop always has enough fuel once the fuel bounds
the number of tokens still ahead of the start index. -/
theorem chunkLoopF_isSome (tokens : List String) (size ov : Nat) (h : ov < size) :
    ∀ fuel start, tokens.length - start ≤ fuel → (chunkLoopF tokens size ov fuel start).isSome := by
  intro fuel
  induction fuel with
  | zero =>
    intro start hle
    unfold chunkLoopF
    split
    · omega
    · simp
  | succ fuel ih =>
    intro start hle
    unfold chunkLoopF
    split
    · rename_i hlt
      have hstep : tokens.length - (start + (size - ov)) ≤ fuel := by omega
      have h2 := ih (start + (size - ov)) hstep
      cases hrec : chunkLoopF tokens size ov fuel (start + (size - ov)) with
      | none => rw [hrec] at h2; simp at h2
      | some r => simp [hrec]
    · simp

/-- With overlap >= size the start index never advances, so on a non-empty
token list the loop runs out of any finite fuel: the source loop diverges. -/
theorem chunkLoopF_diverges (tokens : List String) (size ov : Nat) (h : size ≤ ov)
    (hne : tokens ≠ []) : ∀ fuel, chunkLoopF tokens size ov fuel 0 = none := by
  have hpos : 0 < tokens.length := List.length_pos.mpr hne
  have hz : size - ov = 0 := by omega
  intro fuel
  induction fuel with
  | zero => unfold chunkLoopF; rw [if_pos hpos]
  | succ fuel ih =>
    unfold chunkLoopF
    rw [if_pos hpos, hz]
    simp [ih]

/-- The fuel supplied by chunkTokens is sufficient whenever overlap < size. -/
theorem chunkTokens_eq (tokens : List String) (size ov : Nat) (h : ov < size) :
    chunkLoopF tokens size ov (tokens.length + 1) 0 = some (chunkTokens tokens size ov) := by
  have hs := chunkLoopF_isSome tokens size ov h (tokens.length + 1) 0 (by omega)
  cases heq : chunkLoopF tokens size ov (tokens.length + 1) 0 with
  | none => rw [heq] at hs; simp at hs
  | some r => simp [chunkTokens, heq]

/-- Every chunk the loop emits is a take of length at most size. -/
theorem chunkLoopF_length_le (tokens : List String) (size ov : Nat) :
    ∀ fuel start r, chunkLoopF tokens size ov fuel start = some r →
      ∀ c ∈ r, c.length ≤ size := by
  intro fuel
  induction fuel with
  | zero =>
    intro start r hr c hc
    unfold chunkLoopF at hr
    split at hr
    · exact absurd hr (by simp)
    · cases hr; simp at hc
  | succ fuel ih =>
    intro start r hr c hc
    unfold chunkLoopF at hr
    split at hr
    · cases hrec : chunkLoopF tokens size ov fuel (start + (size - ov)) with
      | none => rw [hrec] at hr; simp at hr
      | some rest =>
        rw [hrec] at hr
        simp only [Option.map_some'] at hr
        cases hr
        rcases List.mem_cons.mp hc with hceq | hc2
        · subst hceq; rw [List.length_take]; omega
        · exact ih (start + (size - ov)) rest hrec c hc2
    · cases hr; simp at hc

/-- Index formula for the chunks the loop emits: chunk i is the window of
size tokens starting at start + i * (size - overlap). -/
theorem chunkLoopF_getD (tokens : List String) (size ov : Nat) :
    ∀ fuel start r, chunkLoopF tokens size ov fuel start = some r →
      ∀ i, i < r.length →
        r.getD i [] = (tokens.drop (start + i * (size - ov))).take size := by
  intro fuel
  induction fuel with
  | zero =>
    intro start r hr i hi
    unfold chunkLoopF at hr
    split at hr
    · exact absurd hr (by simp)
    · cases hr; simp at hi
  | succ fuel ih =>
    intro start r hr i hi
    unfold chunkLoopF at hr
    split at hr
    · cases hrec : chunkLoopF tokens size ov fuel (start + (size - ov)) with
      | none => rw [hrec] at hr; simp at hr
      | some rest =>
        rw [hrec] at hr
        simp only [Option.map_some'] at hr
        cases hr
        cases i with
        | zero => simp [List.getD]
        | succ i =>
          have hrec2 := ih (start + (size - ov)) rest hrec i (by simpa using hi)
          have harith : start + (size - ov) + i * (size - ov) = start + (i + 1) * (size - ov) := by
            ring
          simpa [List.getD, harith] using hrec2
    · cases hr; simp at hi

/-- Two consecutive full-size windows of the token list overlap by exactly
the overlap parameter. -/
theorem window_overlap (tokens : List String) (size ov i : Nat) (h : ov < size)
    (hfull : ((tokens.drop (i * (size - ov))).take size).length = size) :
    overlapsByExactly ((tokens.drop (i * (size - ov))).take size)
      ((tokens.drop ((i + 1) * (size - ov))).take size) ov := by
  have hov : ov ≤ size := Nat.le_of_lt h
  have hlen : size ≤ (tokens.drop (i * (size - ov))).length := by
    have := hfull
    rw [List.length_take] at this
    omega
  have hlendrop : tokens.length ≥ i * (size - ov) + size := by
    rw [List.length_drop] at hlen
    omega
  refine ⟨by omega, ?_, ?_⟩
  · rw [List.length_take, List.length_drop]
    have : (i + 1) * (size - ov) = i * (size - ov) + (size - ov) := by ring
    omega
  · rw [hfull, List.drop_take, List.drop_drop, List.take_take]
    have h1 : size - (size - ov) = ov := by omega
    have h2 : i * (size - ov) + (size - ov) = (i + 1) * (size - ov) := by ring
    have h3 : min ov size = ov := by omega
    rw [h1, h2, h3]

/-- C1 (amended).  For overlap < size, chunk_text splits the text on
whitespace tokens and joins windows with single spaces; every chunk has at
most size tokens; chunk i is the window starting at token i * (size -
overlap), so the window advances by size - overlap tokens per step; and
every pair of consecutive chunks whose first member has exactly size tokens
overlaps by exactly overlap tokens.  (The original claim asserted the exact
overlap for every consecutive pair except the one involving the last chunk;
that fails when size - overlap is small enough that several trailing windows
are already truncated, see the counterexample.) -/
theorem chunk_text_spec (text : String) (size ov : Nat) (h : ov < size) :
    chunk_text text size ov
      = (chunkTokens (pyTokens text) size ov).map (String.intercalate " ")
    ∧ (∀ c ∈ chunkTokens (pyTokens text) size ov, c.length ≤ size)
    ∧ (∀ i, i < (chunkTokens (pyTokens text) size ov).length →
        (chunkTokens (pyTokens text) size ov).getD i []
          = ((pyTokens text).drop (i * (size - ov))).take size)
    ∧ (∀ i, i + 1 < (chunkTokens (pyTokens text) size ov).length →
        ((chunkTokens (pyTokens text) size ov).getD i []).length = size →
        overlapsByExactly ((chunkTokens (pyTokens text) size ov).getD i [])
          ((chunkTokens (pyTokens text) size ov).getD (i + 1) []) ov) := by
  have hsome := chunkTokens_eq (pyTokens text) size ov h
  have hgetD := chunkLoopF_getD (pyTokens text) size ov ((pyTokens text).length + 1) 0
    (chunkTokens (pyTokens text) size ov) hsome
  refine ⟨rfl, ?_, ?_, ?_⟩
  · exact chunkLoopF_length_le (pyTokens text) size ov ((pyTokens text).length + 1) 0
      (chunkTokens (pyTokens text) size ov) hsome
  · intro i hi
    simpa using hgetD i hi
  · intro i hi hful
    have e1 : (chunkTokens (pyTokens text) size ov).getD i []
        = ((pyTokens text).drop (i * (size - ov))).take size := by
      simpa using hgetD i (by omega)
    have e2 : (chunkTokens (pyTokens text) size ov).getD (i + 1) []
        = ((pyTokens text).drop ((i + 1) * (size - ov))).take size := by
      simpa using hgetD (i + 1) hi
    rw [e1, e2]
    rw [e1] at hful
    exact window_overlap (pyTokens text) size ov i h hful

/-- Witness for C1 at text "a b c", size 2, overlap 1. -/
theorem chunk_text_spec_witness :
    1 < 2 ∧ chunk_text "a b c" 2 1
      = (chunkTokens (pyTokens "a b c") 2 1).map (String.intercalate " ") :=
  ⟨by decide, (chunk_text_spec "a b c" 2 1 (by decide)).1⟩

/-- C1 counterexample.  For the text "a b c d" with size 5 and overlap 4
there are four chunks, so the pair of chunks 0 and 1 does not involve the
last chunk; yet the two chunks share only 3 tokens, not overlap = 4 (chunk 0
is "a b c d", chunk 1 is "b c d"). -/
theorem chunk_text_c1_counterexample :
    0 + 2 < (chunkTokens (pyTokens "a b c d") 5 4).length
    ∧ ¬ overlapsByExactly ((chunkTokens (pyTokens "a b c d") 5 4).getD 0 [])
        ((chunkTokens (pyTokens "a b c d") 5 4).getD 1 []) 4 := by decide

/-- C10.  The chunk_text loop terminates on every input whenever
overlap < chunk_size: fuel equal to the token count plus one always
suffices, and chunkTokens is the value the loop returns.  The precondition
is necessary: with overlap >= chunk_size the loop diverges on every
non-empty token list (no fuel is enough).  The in-repository call sites use
chunk_size = 512 with the default overlap = 50, which satisfies the
precondition. -/
theorem chunk_text_termination :
    (∀ (tokens : List String) (size ov : Nat), ov < size →
      ∃ r, chunkLoopF tokens size ov (tokens.length + 1) 0 = some r
        ∧ chunkTokens tokens size ov = r)
    ∧ (∀ (tokens : List String) (size ov : Nat), size ≤ ov → tokens ≠ [] →
        ∀ fuel, chunkLoopF tokens size ov fuel 0 = none)
    ∧ (50 : Nat) < 512 := by
  refine ⟨?_, ?_, by decide⟩
  · intro tokens size ov h
    exact ⟨chunkTokens tokens size ov, chunkTokens_eq tokens size ov h, rfl⟩
  · intro tokens size ov h hne fuel
    exact chunkLoopF_diverges tokens size ov h hne fuel

/-- Witness for C10 at a one-token list with the call-site parameters 512
and 50. -/
theorem chunk_text_termination_witness :
    ∃ r, chunkLoopF ["a"] 512 50 2 0 = some r ∧ chunkTokens ["a"] 512 50 = r :=
  chunk_text_termination.1 ["a"] 512 50 (by decide)

/-! ## Vector store: vectorDBpipe/vectordb/faiss_client.py

FaissDatabase keeps a FAISS IndexFlatL2 plus a python list of metadata
dictionaries.  The index is modelled as the list of stored vectors (over the
rationals) with its fixed dimension; a metadata entry is a record of
document text, metadata pairs and optional id.  Methods that can raise
return the post-call state together with an optional exception message,
because the python methods mutate attributes before a later statement can
raise. -/

/-- One entry of FaissDatabase.metadata_store. -/
structure VectorRecord where
  document : String
  metadata : List (String × String)
  id : Option String
deriving DecidableEq

/-- State of a FaissDatabase: the IndexFlatL2 dimension, its stored vectors
in insertion order, and the aligned metadata_store list. -/
structure FaissState where
  dimension : Nat
  vectors : List (List ℤ)
  metadataStore : List VectorRecord
deriving DecidableEq

/-- Fresh state produced by the initialize branch of _load_or_initialize:
IndexFlatL2(dimension) with an empty metadata_store. -/
def initialFaiss (dim : Nat) : FaissState := ⟨dim, [], []⟩

/-- Embedding of FaissDatabase._load_or_initialize.  When both persisted
artifacts exist they are read back as-is; otherwise a fresh index and empty
metadata list are created.  The method performs no validation of the two
record counts, so it never fails on a mismatched pair (the Except result
type only records that the source method could in principle raise). -/
def loadOrInitialize (dim : Nat)
    (persisted : Option (List (List ℤ) × List VectorRecord)) : Except String FaissState :=
  match persisted with
  | some p => Except.ok ⟨dim, p.1, p.2⟩
  | none => Except.ok ⟨dim, [], []⟩

/-- Metadata entry appended for position i of a batch, mirroring the dict
built in FaissDatabase.add: document is documents[i] (callers guarantee the
index is in range on the non-raising path), metadata falls back to the
empty dict and id to None when the corresponding list is too short or
absent. -/
def mkRecord (documents : List String) (metadata : List (List (String × String)))
    (ids : Option (List String)) (i : Nat) : VectorRecord :=
  { document := documents.getD i ""
  , metadata := if i < metadata.length then metadata.getD i [] else []
  , id := match ids with
          | some l => if i < l.length then some (l.getD i "") else none
          | none => none }

/-- Embedding of FaissDatabase.add.  An empty batch returns immediately.
Otherwise the vectors are handed to index.add, which asserts that every
vector has the index dimension and raises before storing anything when the
assertion fails (the repository itself performs no dimension handling).  On
success the metadata loop appends one record per embedding; if the
documents list is shorter than the batch the loop raises IndexError after
having appended the records for the in-range positions, and the vectors are
already in the index at that point. -/
def FaissState.add (st : FaissState) (embeddings : List (List ℤ)) (documents : List String)
    (metadata : List (List (String × String))) (ids : Option (List String)) :
    FaissState × Option String :=
  if embeddings.isEmpty then (st, none)
  else if embeddings.all (fun e => e.length = st.dimension) then
    let st1 : FaissState := { st with vectors := st.vectors ++ embeddings }
    if documents.length < embeddings.length then
      ({ st1 with metadataStore := st1.metadataStore
            ++ (List.range documents.length).map (mkRecord documents metadata ids) },
       some "IndexError: documents list shorter than embeddings")
    else
      ({ st1 with metadataStore := st1.metadataStore
            ++ (List.range embeddings.length).map (mkRecord documents metadata ids) },
       none)
  else (st, some "AssertionError: embedding dimension differs from index dimension")

/-- Squared L2 distance, the raw score an IndexFlatL2 search reports (lower
is better). -/
def sqDist (q v : List ℤ) : ℤ := ((q.zip v).map (fun p => (p.1 - p.2) ^ 2)).sum

/-- Search result dictionary shape of FaissDatabase.search. -/
structure SearchResult where
  id : Option String
  document : String
  metadata : List (String × String)
  score : ℤ
deriving DecidableEq

/-- Ranking order of an exact flat L2 index: ascending distance, ties broken
by insertion position. -/
def faissLe (a b : Nat × ℤ) : Prop := a.2 < b.2 ∨ (a.2 = b.2 ∧ a.1 ≤ b.1)

instance : DecidableRel faissLe := fun a b => by unfold faissLe; exact inferInstance

instance : IsTotal (Nat × ℤ) faissLe where
  total a b := by
    unfold faissLe
    rcases lt_trichotomy a.2 b.2 with h | h | h
    · exact Or.inl (Or.inl h)
    · rcases Nat.le_total a.1 b.1 with h2 | h2
      · exact Or.inl (Or.inr ⟨h, h2⟩)
      · exact Or.inr (Or.inr ⟨h.symm, h2⟩)
    · exact Or.inr (Or.inl h)

instance : IsTrans (Nat × ℤ) faissLe where
  trans a b c hab hbc := by
    unfold faissLe at *
    rcases hab with hab | ⟨hab, hab2⟩ <;> rcases hbc with hbc | ⟨hbc, hbc2⟩
    · exact Or.inl (lt_trans hab hbc)
    · exact Or.inl (hbc ▸ hab)
    · exact Or.inl (hab ▸ hbc)
    · exact Or.inr ⟨hab.trans hbc, hab2.trans hbc2⟩

/-- Embedding of FaissDatabase.search.  An empty index returns the empty
list.  Otherwise every stored vector is scored with the squared L2 distance
to the query, the k nearest (in faissLe order) are taken — FAISS pads
missing positions with -1, which the loop skips, so taking at most k real
positions is the same — and each surviving position with a metadata entry in
range becomes a result dictionary carrying the raw distance as score. -/
def FaissState.search (st : FaissState) (q : List ℤ) (k : Nat) : List SearchResult :=
  if st.vectors.length = 0 then []
  else
    let scored := (List.range st.vectors.length).map (fun i => (i, sqDist q (st.vectors.getD i [])))
    let ranked := (List.insertionSort faissLe scored).take k
    ranked.filterMap (fun p =>
      if p.1 < st.metadataStore.length then
        some ⟨(st.metadataStore.getD p.1 ⟨"", [], none⟩).id,
              (st.metadataStore.getD p.1 ⟨"", [], none⟩).document,
              (st.metadataStore.getD p.1 ⟨"", [], none⟩).metadata, p.2⟩
      else none)

example :
    ((initialFaiss 1).add [[(0:ℤ)], [(1:ℤ)]] ["x", "y"] [] (some ["a", "b"])).2 = none := by decide
example :
    (((initialFaiss 1).add [[(0:ℤ)], [(1:ℤ)]] ["x", "y"] [] (some ["a", "b"])).1.search [(1:ℤ)] 5).map
      SearchResult.id = [some "b", some "a"] := by decide

theorem sqDist_cons (a b : ℤ) (q v : List ℤ) :
    sqDist (a :: q) (b :: v) = (a - b) ^ 2 + sqDist q v := by
  simp [sqDist]

theorem sqDist_self (q : List ℤ) : sqDist q q = 0 := by
  induction q with
  | nil => rfl
  | cons a q ih => rw [sqDist_cons, ih]; ring

theorem sqDist_nonneg (q : List ℤ) : ∀ v, 0 ≤ sqDist q v := by
  induction q with
  | nil => intro v; cases v <;> simp [sqDist]
  | cons a q ih =>
    intro v
    cases v with
    | nil => simp [sqDist]
    | cons b v =>
      rw [sqDist_cons]
      have h1 := sq_nonneg (a - b)
      have h2 := ih v
      linarith

theorem sqDist_pos (q : List ℤ) : ∀ v, q.length = v.length → q ≠ v → 0 < sqDist q v := by
  induction q with
  | nil =>
    intro v hlen hne
    cases v with
    | nil => exact absurd rfl hne
    | cons b v => simp at hlen
  | cons a q ih =>
    intro v hlen hne
    cases v with
    | nil => simp at hlen
    | cons b v =>
      rw [sqDist_cons]
      by_cases hab : a = b
      · subst hab
        have hne2 : q ≠ v := fun h => hne (by rw [h])
        have h1 := ih v (by simpa using hlen) hne2
        have h2 := sq_nonneg (a - a)
        linarith
      · have hz : a - b ≠ 0 := sub_ne_zero.mpr hab
        have h1 : 0 < (a - b) ^ 2 :=
          lt_of_le_of_ne (sq_nonneg _) (Ne.symm (pow_ne_zero 2 hz))
        have h2 := sqDist_nonneg q v
        linarith

/-- Head of the insertion sort when one element is strictly below every
other in distance: it comes first, and the tail elements all come from the
input list. -/
theorem insertionSort_head_of_strict_min (l : List (Nat × ℤ)) (p : Nat × ℤ)
    (hp : p ∈ l) (hmin : ∀ x ∈ l, x ≠ p → p.2 < x.2) :
    ∃ t, List.insertionSort faissLe l = p :: t ∧ ∀ x ∈ t, x ∈ l := by
  have hperm := List.perm_insertionSort faissLe l
  have hsorted := List.sorted_insertionSort faissLe l
  have hpmem : p ∈ List.insertionSort faissLe l := hperm.mem_iff.mpr hp
  cases hsort : List.insertionSort faissLe l with
  | nil => rw [hsort] at hpmem; simp at hpmem
  | cons h t =>
    rw [hsort] at hpmem hsorted hperm
    have hht : ∀ x ∈ t, faissLe h x := (List.sorted_cons.mp hsorted).1
    have hhl : h ∈ l := hperm.subset (List.mem_cons_self h t)
    have hpeq : p = h := by
      rcases List.mem_cons.mp hpmem with h1 | h1
      · exact h1
      · by_contra hne
        have hlt : p.2 < h.2 := hmin h hhl (fun he => hne (by rw [he]))
        rcases hht p h1 with h2 | ⟨h2, _⟩ <;> linarith
    subst hpeq
    exact ⟨t, rfl, fun x hx => hperm.subset (List.mem_cons_of_mem _ hx)⟩

/-- Search on a state where position j scores 0 against the query and every
other position scores strictly above 0 returns the record at j first, with
score 0, all remaining scores non-negative. -/
theorem search_eq_cons (st : FaissState) (q : List ℤ) (kp j : Nat)
    (hj : j < st.vectors.length)
    (hjm : j < st.metadataStore.length)
    (hzero : sqDist q (st.vectors.getD j []) = 0)
    (hstrict : ∀ i, i < st.vectors.length → i ≠ j → 0 < sqDist q (st.vectors.getD i [])) :
    ∃ rest, st.search q (kp + 1)
        = (⟨(st.metadataStore.getD j ⟨"", [], none⟩).id,
            (st.metadataStore.getD j ⟨"", [], none⟩).document,
            (st.metadataStore.getD j ⟨"", [], none⟩).metadata, 0⟩ : SearchResult) :: rest
        ∧ ∀ r ∈ rest, (0:ℤ) ≤ r.score := by
  have hp : (j, (0:ℤ)) ∈ (List.range st.vectors.length).map
      (fun i => (i, sqDist q (st.vectors.getD i []))) := by
    refine List.mem_map.mpr ⟨j, List.mem_range.mpr hj, ?_⟩
    rw [hzero]
  have hmin : ∀ x ∈ (List.range st.vectors.length).map
      (fun i => (i, sqDist q (st.vectors.getD i []))), x ≠ (j, (0:ℤ)) → (0:ℤ) < x.2 := by
    intro x hx hxne
    rcases List.mem_map.mp hx with ⟨i, hi, hxeq⟩
    have hiN := List.mem_range.mp hi
    by_cases hij : i = j
    · exfalso
      apply hxne
      rw [← hxeq, hij, hzero]
    · rw [← hxeq]
      exact hstrict i hiN hij
  obtain ⟨t, hsort, htmem⟩ := insertionSort_head_of_strict_min
    ((List.range st.vectors.length).map (fun i => (i, sqDist q (st.vectors.getD i []))))
    (j, 0) hp hmin
  unfold FaissState.search
  rw [if_neg (by omega)]
  dsimp only
  rw [hsort, List.take_succ_cons, List.filterMap_cons]
  have hcond : ((j, (0:ℤ)).1 < st.metadataStore.length) = True := eq_true hjm
  simp only [hcond, if_true]
  refine ⟨_, rfl, ?_⟩
  intro r hr
  rcases List.mem_filterMap.mp hr with ⟨x, hx, hfx⟩
  have hxs := htmem x (List.mem_of_mem_take hx)
  rcases List.mem_map.mp hxs with ⟨i, hi, hxeq⟩
  have hxsc : (0:ℤ) ≤ x.2 := by
    rw [← hxeq]
    exact sqDist_nonneg q _
  split at hfx
  · cases hfx
    exact hxsc
  · exact absurd hfx (by simp)

/-- C2 (amended).  Build a store by a single add of N pairwise-distinct
records of the constructed dimension (N >= 1, aligned documents list), then
search with the stored embedding of record j and any k >= 1.  The add
succeeds, and record j comes back as the first result — hence within the
top min(N, k) results — with score 0, the best possible squared L2
distance, no other result scoring below it.  (The original claim, without
the distinctness proviso, fails: a vector stored twice cannot have both of
its records inside the top-1 results, see the counterexample.) -/
theorem faiss_add_search_roundtrip (dim k j : Nat) (embeddings : List (List ℤ))
    (documents : List String) (metadata : List (List (String × String)))
    (ids : Option (List String))
    (hd : ∀ e ∈ embeddings, e.length = dim)
    (hdoc : documents.length = embeddings.length)
    (hnd : embeddings.Nodup)
    (hj : j < embeddings.length)
    (hk : 0 < k) :
    ∃ st rest,
      (initialFaiss dim).add embeddings documents metadata ids = (st, none)
      ∧ st.search (embeddings.getD j []) k
          = (⟨(mkRecord documents metadata ids j).id,
              (mkRecord documents metadata ids j).document,
              (mkRecord documents metadata ids j).metadata, 0⟩ : SearchResult) :: rest
      ∧ ∀ r ∈ rest, (0:ℤ) ≤ r.score := by
  have hne : embeddings ≠ [] := by
    intro h; rw [h] at hj; simp at hj
  have hndoc : ¬ documents.length < embeddings.length := by omega
  have hadd : (initialFaiss dim).add embeddings documents metadata ids
      = (⟨dim, embeddings,
          (List.range embeddings.length).map (mkRecord documents metadata ids)⟩, none) := by
    unfold FaissState.add
    simp [initialFaiss, hne, hndoc, List.all_eq_true]
    exact hd
  have hqmem : embeddings.getD j [] ∈ embeddings := by
    rw [List.getD_eq_getElem embeddings [] hj]
    exact List.getElem_mem hj
  have hstrict : ∀ i, i < embeddings.length → i ≠ j →
      0 < sqDist (embeddings.getD j []) (embeddings.getD i []) := by
    intro i hiN hij
    have himem : embeddings.getD i [] ∈ embeddings := by
      rw [List.getD_eq_getElem embeddings [] hiN]
      exact List.getElem_mem hiN
    have hlen : (embeddings.getD j []).length = (embeddings.getD i []).length := by
      rw [hd _ hqmem, hd _ himem]
    have hneq : embeddings.getD j [] ≠ embeddings.getD i [] := by
      intro he
      apply hij
      have hinj := List.nodup_iff_injective_getElem.mp hnd
      have hgij : (fun x : Fin embeddings.length => embeddings[x.1]) ⟨i, hiN⟩
          = (fun x : Fin embeddings.length => embeddings[x.1]) ⟨j, hj⟩ := by
        simp only []
        rw [← List.getD_eq_getElem embeddings [] hiN, ← List.getD_eq_getElem embeddings [] hj]
        exact he.symm
      exact congrArg Fin.val (hinj hgij)
    exact sqDist_pos _ _ hlen hneq
  cases k with
  | zero => omega
  | succ kp =>
    obtain ⟨rest, hs, hrest⟩ := search_eq_cons
      ⟨dim, embeddings, (List.range embeddings.length).map (mkRecord documents metadata ids)⟩
      (embeddings.getD j []) kp j hj (by simpa using hj) (sqDist_self _)
      hstrict
    have hgetm : (((List.range embeddings.length).map
        (mkRecord documents metadata ids)).getD j (⟨"", [], none⟩ : VectorRecord))
        = mkRecord documents metadata ids j := by
      have hjm : j < ((List.range embeddings.length).map
          (mkRecord documents metadata ids)).length := by simpa using hj
      rw [List.getD_eq_getElem _ _ hjm]
      simp
    rw [hgetm] at hs
    exact ⟨_, rest, hadd, hs, hrest⟩

/-- Witness for C2: two distinct one-dimensional vectors, querying the first
with k = 1. -/
theorem faiss_add_search_roundtrip_witness :
    ∃ st rest,
      (initialFaiss 1).add [[(0:ℤ)], [(1:ℤ)]] ["x", "y"] [] (some ["a", "b"]) = (st, none)
      ∧ st.search ([[(0:ℤ)], [(1:ℤ)]].getD 0 []) 1
          = (⟨(mkRecord ["x", "y"] [] (some ["a", "b"]) 0).id,
              (mkRecord ["x", "y"] [] (some ["a", "b"]) 0).document,
              (mkRecord ["x", "y"] [] (some ["a", "b"]) 0).metadata, 0⟩ : SearchResult) :: rest
      ∧ ∀ r ∈ rest, (0:ℤ) ≤ r.score :=
  faiss_add_search_roundtrip 1 1 0 [[(0:ℤ)], [(1:ℤ)]] ["x", "y"] [] (some ["a", "b"])
    (by decide) (by decide) (by decide) (by decide) (by decide)

/-- C2 counterexample.  Store the same vector twice (ids "a" and "b") and
search with it as the query and top_k = 1: the single returned result — the
top min(2, 1) = 1 results — carries id "a", so the round-trip property fails
for the record with id "b", whose embedding also equals the query. -/
theorem faiss_duplicate_counterexample :
    ((initialFaiss 1).add [[(0:ℤ)], [(0:ℤ)]] ["x", "y"] [] (some ["a", "b"])).2 = none
    ∧ (((initialFaiss 1).add [[(0:ℤ)], [(0:ℤ)]] ["x", "y"] [] (some ["a", "b"])).1.search
        ([[(0:ℤ)], [(0:ℤ)]].getD 1 []) 1).map SearchResult.id = [some "a"]
    ∧ ¬ some "b" ∈ (((initialFaiss 1).add [[(0:ℤ)], [(0:ℤ)]] ["x", "y"] []
        (some ["a", "b"])).1.search ([[(0:ℤ)], [(0:ℤ)]].getD 1 []) 1).map SearchResult.id := by
  decide

/-- C6 counterexample.  A persisted pair whose index holds one vector while
the metadata table is empty loads successfully: _load_or_initialize performs
no record-count validation, against the claim that such a load fails with a
fatal corruption error. -/
theorem load_mismatch_counterexample :
    loadOrInitialize 384 (some ([[(1:ℤ)]], []))
      = Except.ok (⟨384, [[(1:ℤ)]], []⟩ : FaissState)
    ∧ ([[(1:ℤ)]] : List (List ℤ)).length ≠ ([] : List VectorRecord).length := by
  exact ⟨rfl, by decide⟩

/-- C6 (amended).  Loading a persisted store performs no record-count
validation: every persisted index/metadata pair, matching or not, is loaded
as-is and the store becomes usable; only a missing pair leads to a fresh
empty state. -/
theorem load_no_count_validation (dim : Nat)
    (persisted : Option (List (List ℤ) × List VectorRecord)) :
    loadOrInitialize dim persisted
      = Except.ok (match persisted with
                   | some p => (⟨dim, p.1, p.2⟩ : FaissState)
                   | none => initialFaiss dim) := by
  cases persisted <;> rfl

/-- C7 counterexample.  A freshly constructed store (default dimension 384)
given a first batch of dimension 2 raises the FAISS dimension assertion and
stores nothing, against the claim that an unset dimension is inferred from
the first batch. -/
theorem add_first_batch_counterexample :
    ((initialFaiss 384).add [[(1:ℤ), 2]] ["d"] [] none).2.isSome = true
    ∧ ((initialFaiss 384).add [[(1:ℤ), 2]] ["d"] [] none).1 = initialFaiss 384 := by decide

/-- C7 (amended).  The backing dimension of a FaissDatabase is fixed at
construction (default 384) and never inferred from data: any non-empty
batch containing a vector whose length differs from the constructed
dimension — the first batch included — fails with the dimension assertion of
the underlying index, leaving the store unchanged; no DimensionMismatch
error type exists in the repository. -/
theorem add_dimension_fixed (st : FaissState) (embeddings : List (List ℤ))
    (documents : List String) (metadata : List (List (String × String)))
    (ids : Option (List String)) (hne : embeddings ≠ [])
    (hbad : ∃ e ∈ embeddings, e.length ≠ st.dimension) :
    st.add embeddings documents metadata ids
      = (st, some "AssertionError: embedding dimension differs from index dimension") := by
  unfold FaissState.add
  rw [if_neg (by simpa using hne), if_neg]
  simp only [List.all_eq_true, not_forall]
  rcases hbad with ⟨e, he, hlen⟩
  exact ⟨e, he, by simpa using hlen⟩

/-- Witness for C7 at a concrete mismatched batch. -/
theorem add_dimension_fixed_witness :
    (initialFaiss 384).add [[(1:ℤ), 2, 3]] ["doc"] [] none
      = (initialFaiss 384, some "AssertionError: embedding dimension differs from index dimension") :=
  add_dimension_fixed (initialFaiss 384) [[(1:ℤ), 2, 3]] ["doc"] [] none (by decide)
    ⟨[(1:ℤ), 2, 3], by decide⟩

/-! ## Flush: VDBpipe._embed_and_store (vectorDBpipe/pipeline/vdbpipe.py) -/

/-- Embedding of VDBpipe._embed_and_store.  The embedder is a fallible batch
map from chunk texts to vectors; the whole try body — embed_batch followed
by vector_store.add — sits under an except clause that logs a warning and
returns, so no exception escapes: the second component of the result, the
uncaught-exception slot of the call, is always none.  When embedder or
vector store is missing the method warns and skips. -/
def embedAndStore (embedder : Option (List String → Except String (List (List ℤ))))
    (store : Option FaissState) (chunks docs : List String)
    (metadata : List (List (String × String))) : Option FaissState × Option String :=
  match embedder, store with
  | some embed, some st =>
    match embed chunks with
    | Except.ok embs => (some (st.add embs docs metadata none).1, none)
    | Except.error _ => (some st, none)
  | _, _ => (store, none)

/-- C5 counterexample.  With a failing embedding provider the flush returns
normally: the exception slot is none — nothing propagates out of
_embed_and_store, against the claim — and the batch is silently dropped,
leaving the store exactly as it was. -/
theorem embed_failure_counterexample :
    embedAndStore (some (fun _ => Except.error "embedding provider failure"))
        (some (initialFaiss 384)) ["chunk one"] ["chunk one"] []
      = (some (initialFaiss 384), none) := rfl

/-- C5 (amended).  An embedding failure during a flush is caught and logged
by _embed_and_store rather than propagated: the call returns normally with
no exception, the failed batch is not stored, and the store — hence every
earlier batch already flushed into it — is left unchanged. -/
theorem embed_failure_swallowed (embed : List String → Except String (List (List ℤ)))
    (st : FaissState) (chunks docs : List String)
    (metadata : List (List (String × String))) (msg : String)
    (hfail : embed chunks = Except.error msg) :
    embedAndStore (some embed) (some st) chunks docs metadata = (some st, none) := by
  have hdef : embedAndStore (some embed) (some st) chunks docs metadata
      = match embed chunks with
        | Except.ok embs => (some (st.add embs docs metadata none).1, none)
        | Except.error _ => (some st, none) := rfl
  rw [hdef, hfail]

/-- Witness for C5 at a concrete failing embedder over a non-empty store. -/
theorem embed_failure_swallowed_witness :
    embedAndStore (some (fun _ => Except.error "boom"))
        (some (⟨1, [[(2:ℤ)]], [⟨"d", [], some "a"⟩]⟩ : FaissState)) ["c"] ["c"] []
      = (some (⟨1, [[(2:ℤ)]], [⟨"d", [], some "a"⟩]⟩ : FaissState), none) :=
  embed_failure_swallowed (fun _ => Except.error "boom")
    (⟨1, [[(2:ℤ)]], [⟨"d", [], some "a"⟩]⟩ : FaissState) ["c"] ["c"] [] "boom" rfl

/-! ## Router and engines: vectorDBpipe/pipeline/vdbpipe.py -/

/-- Substring membership on character lists, the semantics of the Python
`in` operator on strings. -/
def containsSub (sub : List Char) : List Char → Bool
  | [] => sub.isEmpty
  | c :: rest => sub.isPrefixOf (c :: rest) || containsSub sub rest

/-- Python `sub in s` for strings. -/
def pyIn (sub s : String) : Bool := containsSub sub.toList s.toList

/-- ASCII lowercasing of one character, the part of str.lower() exercised by
the router keywords. -/
def pyLowerChar (c : Char) : Char :=
  if 'A' ≤ c ∧ c ≤ 'Z' then Char.ofNat (c.toNat + 32) else c

/-- Embedding of query.lower(). -/
def pyLower (s : String) : String := String.mk (s.toList.map pyLowerChar)

/-- Embedding of VDBpipe._route_query: ordered keyword checks on the
lowercased query, first match winning, defaulting to ENGINE_1. -/
def route_query (query : String) : String :=
  if pyIn "summarize" (pyLower query) || pyIn "overall tone" (pyLower query)
      || pyIn "chapter" (pyLower query) then "ENGINE_2"
  else if pyIn "connected" (pyLower query) || pyIn "relationship" (pyLower query)
      || pyIn "how is" (pyLower query) then "ENGINE_3"
  else "ENGINE_1"

/-- Engine identifiers of the spec, a closed enumeration. -/
inductive Engine
  | VECTOR
  | VECTORLESS
  | GRAPH
  | EXTRACT
deriving DecidableEq

/-- Spec-side router, written from the spec wording for the refinement
comparison: presence of the summarize/overall-tone/chapter keywords gives
VECTORLESS, else the connected/relationship/how-is keywords give GRAPH, else
VECTOR, checks evaluated in this fixed priority order over the lowercased
query with first match winning. -/
def routeSpecModel (query : String) : Engine :=
  if pyIn "summarize" (pyLower query) || pyIn "overall tone" (pyLower query)
      || pyIn "chapter" (pyLower query) then Engine.VECTORLESS
  else if pyIn "connected" (pyLower query) || pyIn "relationship" (pyLower query)
      || pyIn "how is" (pyLower query) then Engine.GRAPH
  else Engine.VECTOR

/-- Mapping between the spec engine names and the engine strings the code
dispatches on (query() sends ENGINE_1 to the vector executor, ENGINE_2 to
the vectorless executor, ENGINE_3 to the graph executor; extract() is
ENGINE_4). -/
def engineId : Engine → String
  | Engine.VECTOR => "ENGINE_1"
  | Engine.VECTORLESS => "ENGINE_2"
  | Engine.GRAPH => "ENGINE_3"
  | Engine.EXTRACT => "ENGINE_4"

/-- C3.  The code router agrees with the spec router everywhere; the three
spec queries route to VECTORLESS, GRAPH and VECTOR respectively; and any
query whose lowercasing contains both "summarize" and "connected" resolves
to VECTORLESS (the first check wins). -/
theorem route_query_spec :
    (∀ q : String, route_query q = engineId (routeSpecModel q))
    ∧ route_query "Can you summarize this report?" = engineId Engine.VECTORLESS
    ∧ route_query "How are X and Y connected?" = engineId Engine.GRAPH
    ∧ route_query "What was Q3 revenue?" = engineId Engine.VECTOR
    ∧ (∀ q : String, pyIn "summarize" (pyLower q) = true →
        pyIn "connected" (pyLower q) = true → route_query q = "ENGINE_2") := by
  refine ⟨?_, by decide, by decide, by decide, ?_⟩
  · intro q
    unfold route_query routeSpecModel
    split
    · rfl
    · split <;> rfl
  · intro q h1 h2
    unfold route_query
    rw [if_pos]
    rw [h1]
    simp

/-- Witness for C3 on a query containing both "summarize" and "connected". -/
theorem route_query_spec_witness :
    route_query "summarize how A and B are connected" = "ENGINE_2" :=
  route_query_spec.2.2.2.2 "summarize how A and B are connected" (by decide) (by decide)

/-- Signature of LLMProvider.generate_response as used by the executors:
system prompt, user query, retrieved context, producing the generated
text. -/
def GenFn := String → String → String → String

/-- Embedding of VDBpipe._engine_2_vectorless_rag.  The llm attribute is
None when no generation provider is configured; the serialized page index
json.dumps(self.page_index) is abstracted as the pageIndexDump input, which
only the configured branch consumes. -/
def engine2VectorlessRag (llm : Option GenFn) (pageIndexDump query : String) : String :=
  match llm with
  | none => "LLM not configured."
  | some gen =>
    gen "You are a Vectorless RAG Agent. Read the provided page structures and answer fundamentally."
      query pageIndexDump

/-- A directed edge of the NetworkX graph with its relation attribute. -/
structure GraphEdge where
  src : String
  dst : String
  relation : String
deriving DecidableEq

/-- One serialized line of the graph dump, f-string "u -> relation -> v". -/
def edgeLine (e : GraphEdge) : String :=
  e.src ++ " -> " ++ e.relation ++ " -> " ++ e.dst

/-- Embedding of VDBpipe._engine_3_graph_rag.  The llm check comes first;
then up to 20 edges are serialized (the join separator in the source is the
two-character text backslash-n, faithfully kept); an empty dump gives the
fixed empty-graph message, otherwise the provider is called. -/
def engine3GraphRag (llm : Option GenFn) (edges : List GraphEdge) (query : String) : String :=
  match llm with
  | none => "LLM not configured."
  | some gen =>
    let graphDump := String.intercalate "\\n" ((edges.take 20).map edgeLine)
    if graphDump = "" then "Knowledge graph is currently empty. Run ingestion first."
    else
      gen "You are a GraphRAG Detective. Use the provided Knowledge Graph relationships to answer reasoning questions."
        query graphDump

/-- C4 counterexample.  With no generation provider, the GRAPH executor on
an empty graph returns the fixed not-configured message, not the fixed
empty-graph message the claim asserts: the llm check precedes the
empty-graph check. -/
theorem engine3_no_llm_counterexample :
    engine3GraphRag none [] "What is connected to what?" = "LLM not configured."
    ∧ "LLM not configured." ≠ "Knowledge graph is currently empty. Run ingestion first." :=
  ⟨rfl, by decide⟩

/-- C4 (amended).  With no generation provider configured both executors
return the fixed not-configured message, whatever the graph or page index
holds, and neither raises; the fixed empty-graph message is returned by the
GRAPH executor when a provider is configured but the graph has no edges. -/
theorem engines_no_llm_messages :
    (∀ (edges : List GraphEdge) (q : String),
      engine3GraphRag none edges q = "LLM not configured.")
    ∧ (∀ (dump q : String), engine2VectorlessRag none dump q = "LLM not configured.")
    ∧ (∀ (gen : GenFn) (q : String),
        engine3GraphRag (some gen) [] q
          = "Knowledge graph is currently empty. Run ingestion first.") := by
  refine ⟨fun edges q => rfl, fun dump q => rfl, fun gen q => ?_⟩
  show (if String.intercalate "\\n" (([] : List GraphEdge).take 20 |>.map edgeLine) = ""
      then "Knowledge graph is currently empty. Run ingestion first."
      else gen "You are a GraphRAG Detective. Use the provided Knowledge Graph relationships to answer reasoning questions."
        q (String.intercalate "\\n" (([] : List GraphEdge).take 20 |>.map edgeLine)))
      = "Knowledge graph is currently empty. Run ingestion first."
  rw [if_pos]
  rfl

/-! ## Engine 4 extract: VDBpipe._engine_4_extract

The source searches the provider response with the raw regex written as
doubled backslash, open brace, dot star, doubled backslash, close brace,
under DOTALL.  Inside a raw string the doubled backslash is an escaped
backslash, so the compiled pattern matches a literal backslash immediately
followed by a brace — not a plain JSON object.  The model below implements
exactly that pattern: leftmost start at a backslash-open-brace pair that has
some backslash-close-brace pair at least two characters later, greedy
extension to the last such close pair. -/

/-- Two-character pattern: a literal backslash then an opening brace. -/
def openPat : List Char := ['\\', Char.ofNat 123]

/-- Two-character pattern: a literal backslash then a closing brace. -/
def closePat : List Char := ['\\', Char.ofNat 125]

/-- The pattern occurs in s at position i. -/
def patAt (pat s : List Char) (i : Nat) : Bool := pat.isPrefixOf (s.drop i)

/-- Positions where a close pair may end a match that started at i. -/
def matchEnds (s : List Char) (i : Nat) : List Nat :=
  (List.range s.length).filter (fun j => decide (i + 2 ≤ j) && patAt closePat s j)

/-- Positions where a match can start: an open pair with a later close
pair. -/
def matchStarts (s : List Char) : List Nat :=
  (List.range s.length).filter (fun i => patAt openPat s i && !(matchEnds s i).isEmpty)

/-- Embedding of re.search on the pattern of _engine_4_extract: none when no
match, otherwise the leftmost-start, greedy (last close) match text. -/
def findPseudoJsonMatch (s : List Char) : Option (List Char) :=
  match matchStarts s with
  | [] => none
  | i :: _ =>
    match (matchEnds s i).getLast? with
    | some j => some ((s.drop i).take (j + 2 - i))
    | none => none

/-- Observable result shapes of _engine_4_extract: the not-configured error
dict, a parsed object, the raw_output dict, or the error dict produced when
json.loads raises inside the try block. -/
inductive ExtractOutcome
  | notConfigured
  | parsed (value : String)
  | rawOutput (response : String)
  | errorMsg (msg : String)
deriving DecidableEq

/-- Embedding of VDBpipe._engine_4_extract.  The provider is queried, the
pseudo-JSON pattern searched; a match is handed to json.loads (abstracted as
jsonLoads, none meaning the parse raised, in which case the except clause
returns the error dict); no match returns the raw response tagged as
raw_output. -/
def engine4Extract (llm : Option (String → String → String))
    (jsonLoads : String → Option String) (schemaPrompt query : String) : ExtractOutcome :=
  match llm with
  | none => ExtractOutcome.notConfigured
  | some gen =>
    match findPseudoJsonMatch (gen schemaPrompt query).toList with
    | some m =>
      match jsonLoads (String.mk m) with
      | some v => ExtractOutcome.parsed v
      | none => ExtractOutcome.errorMsg (String.mk m)
    | none => ExtractOutcome.rawOutput (gen schemaPrompt query)

/-- C8.  Evaluation of the extract engine at the failing inputs.  First: a
provider response that is a plain JSON object contains no backslash-brace
pair, so the pattern never matches and the code returns the raw_output dict
instead of the parsed object the claim (and the intent of the code)
describes — for every behavior of json.loads, which is never reached.
Second: when the pattern does match, the matched text keeps its backslashes,
json.loads raises on it, and the code returns the error dict, not the
raw-output tag the claim describes for parse failures. -/
theorem extract_regex_bug (jsonLoads : String → Option String) :
    engine4Extract (some (fun _ _ => "\x7b\"name\": \"Ada\"\x7d")) jsonLoads "schema" "q"
      = ExtractOutcome.rawOutput "\x7b\"name\": \"Ada\"\x7d"
    ∧ engine4Extract (some (fun _ _ => "json: \\\x7b\"a\": 1\\\x7d")) (fun _ => none) "schema" "q"
      = ExtractOutcome.errorMsg "\\\x7b\"a\": 1\\\x7d" := by
  constructor
  · have hdef : engine4Extract (some (fun _ _ => "\x7b\"name\": \"Ada\"\x7d")) jsonLoads "schema" "q"
        = match findPseudoJsonMatch ("\x7b\"name\": \"Ada\"\x7d").toList with
          | some m =>
            match jsonLoads (String.mk m) with
            | some v => ExtractOutcome.parsed v
            | none => ExtractOutcome.errorMsg (String.mk m)
          | none => ExtractOutcome.rawOutput "\x7b\"name\": \"Ada\"\x7d" := rfl
    have h : findPseudoJsonMatch ("\x7b\"name\": \"Ada\"\x7d").toList = none := by decide
    rw [hdef, h]
  · decide

/-! ## Graph triple parsing: VDBpipe._extract_structure_and_graph -/

/-- Embedding of str.strip(): drop whitespace from both ends. -/
def pyStrip (s : List Char) : List Char :=
  ((s.dropWhile pyIsSpace).reverse.dropWhile pyIsSpace).reverse

/-- Embedding of str.split(sep) for a one-character separator: split at
every occurrence, keeping empty parts (so the empty input gives one empty
part). -/
def pySplitChar (sep : Char) : List Char → List (List Char)
  | [] => [[]]
  | c :: rest =>
    let r := pySplitChar sep rest
    if c = sep then [] :: r
    else
      match r with
      | [] => [[c]]
      | h :: t => (c :: h) :: t

/-- Embedding of the per-line triple parsing in the graph-extraction loop:
strip the line, split on pipes, accept exactly 3 parts, strip each part.
The accepted value is (entity1, relation, entity2); the source adds the edge
entity1 -> entity2 carrying the relation label. -/
def parseTripleLine (line : List Char) : Option (String × String × String) :=
  match pySplitChar '|' (pyStrip line) with
  | [e1, rel, e2] =>
    some (String.mk (pyStrip e1), String.mk (pyStrip rel), String.mk (pyStrip e2))
  | _ => none

/-- Embedding of the whole response loop: split the response on newlines and
keep the accepted triples, in order; other lines contribute nothing. -/
def extractGraphTriples (response : String) : List (String × String × String) :=
  (pySplitChar '\n' response.toList).filterMap parseTripleLine

/-- Acceptance condition asserted by the claim, for comparison: exactly 3
pipe-delimited parts, every part non-empty after trimming. -/
def claimTripleAccept (line : List Char) : Bool :=
  match pySplitChar '|' (pyStrip line) with
  | [e1, rel, e2] =>
    !(pyStrip e1).isEmpty && !(pyStrip rel).isEmpty && !(pyStrip e2).isEmpty
  | _ => false

/-- C9 counterexample.  The line "x||y" splits into 3 parts whose middle
part is empty, so the claim rejects it; the code accepts it and adds the
edge x -> y labelled with the empty relation, as the two-line response
shows. -/
theorem triple_empty_part_counterexample :
    parseTripleLine ("x||y".toList) = some ("x", "", "y")
    ∧ claimTripleAccept ("x||y".toList) = false
    ∧ extractGraphTriples "A|rel|B\nx||y" = [("A", "rel", "B"), ("x", "", "y")] := by decide

/-- C9 (amended).  A line of the provider response is accepted, and its
stripped parts added as a directed edge, exactly when the stripped line
splits into exactly 3 pipe-delimited parts — the parts may be empty, the
non-emptiness the claim asserts is not checked.  Every other line is
silently discarded: the response loop is the total function keeping exactly
the accepted lines, so malformed lines never raise or abort ingestion. -/
theorem triple_line_accept_spec :
    (∀ line : List Char,
      (parseTripleLine line).isSome = true ↔ (pySplitChar '|' (pyStrip line)).length = 3)
    ∧ ∀ response : String,
        extractGraphTriples response
          = (pySplitChar '\n' response.toList).filterMap parseTripleLine := by
  refine ⟨?_, fun response => rfl⟩
  intro line
  cases h : pySplitChar '|' (pyStrip line) with
  | nil => simp [parseTripleLine, h]
  | cons a t =>
    cases t with
    | nil => simp [parseTripleLine, h]
    | cons b t2 =>
      cases t2 with
      | nil => simp [parseTripleLine, h]
      | cons c t3 =>
        cases t3 with
        | nil => simp [parseTripleLine, h]
        | cons d t4 => simp [parseTripleLine, h]

end VectorDBpipe
